import Mathlib

/-!
# Verification of the acorde CRDT sync engine core

Shallow embedding of the core components of the acorde repository:
the Lamport clock (`internal/core/clock.go`), the entry model
(`internal/core`), the LWW element set and OR-Set CRDTs
(`internal/crdt/orset.go`), the replica (`internal/crdt`), the
content-addressed blob store (`internal/blob/store.go`) including a full
SHA-256 embedding, the content AEAD wrapper (`internal/crypto`), the sync
protocol message logic (`internal/sync/p2p.go`), and the SQLite
materialized view (`internal/storage/sqlite/sqlite.go`).

Go maps are embedded as lookup functions together with an explicit
finite support set (the map's key set); Go `uint64` arithmetic is `Nat`
with an explicit `% 2^64` where the source increments; byte strings are
`List Nat`.
-/

namespace Acorde

/-- Byte strings (`[]byte` in Go); each element is a byte value. -/
abbrev Bytes := List Nat

/-- `2^64`, the modulus of Go's `uint64` arithmetic. -/
def U64 : Nat := 2 ^ 64

/-! ## Lamport clock (`internal/core/clock.go`) -/

/-- Lamport logical clock: a single `uint64` counter.
The Go struct also carries a mutex; operations here are the pure
state transitions performed under that lock. -/
structure Clock where
  time : Nat
deriving Repr

/-- `Clock.Tick`: increment (with `uint64` wraparound) and return the new time. -/
def Clock.Tick (c : Clock) : Nat × Clock :=
  let t := (c.time + 1) % U64
  (t, ⟨t⟩)

/-- `Clock.Update`: merge with a remote timestamp.
Sets local time to `max(local, remote)` and then increments
(with `uint64` wraparound), returning the new time. -/
def Clock.Update (c : Clock) (remoteTime : Nat) : Nat × Clock :=
  let t0 := if remoteTime > c.time then remoteTime else c.time
  let t := (t0 + 1) % U64
  (t, ⟨t⟩)

/-- `Clock.Now`: read the current time without advancing. -/
def Clock.Now (c : Clock) : Nat := c.time

/-! ## Entry model (`internal/core`) -/

/-- Entry / replica identifiers. Go uses `uuid.UUID`; the CRDT layer only
ever compares ids for equality or by their string representation
(`ID.String()`), so ids are embedded as the strings themselves. -/
abbrev Id := String

/-- `core.Entry`: the canonical state unit. `Type` is the entry-kind
string, `Content` is opaque bytes, timestamps are Lamport times. -/
structure Entry where
  id : Id
  type : String
  content : Bytes
  tags : List String
  createdAt : Nat
  updatedAt : Nat
  deleted : Bool
deriving DecidableEq, Repr

/-! ## LWW element set (`internal/crdt`, LWWSet) -/

/-- `crdt.LWWElement`: an entry together with its LWW metadata. -/
structure LWWElement where
  entry : Entry
  timestamp : Nat
  deleted : Bool
deriving DecidableEq, Repr

/-- Go string `>` comparison on the underlying character lists
(byte-lexicographic; id strings are ASCII so character order equals
byte order). `goCharsLt a b` is `a < b`. -/
def goCharsLt : List Char → List Char → Bool
  | [], [] => false
  | [], _ :: _ => true
  | _ :: _, [] => false
  | a :: as, b :: bs =>
    if a.toNat < b.toNat then true
    else if b.toNat < a.toNat then false
    else goCharsLt as bs

/-- Go `a > b` on strings. -/
def goStrGt (a b : String) : Bool := goCharsLt b.data a.data

/-- `crdt.LWWSet`: map `id → LWWElement`, embedded as a lookup function
plus the map's key set. -/
structure LWWSet where
  elems : Id → Option LWWElement
  support : Finset Id

/-- `crdt.NewLWWSet`: the empty LWW set. -/
def LWWSet.empty : LWWSet := ⟨fun _ => none, ∅⟩

/-- `LWWSet.Add`: add or update an entry. Replaces the stored element iff
the new timestamp is strictly higher, or the timestamps are equal and the
new entry's id string compares greater than the stored entry's id string. -/
def LWWSet.Add (s : LWWSet) (e : Entry) : LWWSet where
  elems := fun i =>
    if i = e.id then
      match s.elems e.id with
      | none => some ⟨e, e.updatedAt, e.deleted⟩
      | some existing =>
        if e.updatedAt > existing.timestamp ∨
            (e.updatedAt = existing.timestamp ∧ goStrGt e.id existing.entry.id) then
          some ⟨e, e.updatedAt, e.deleted⟩
        else some existing
    else s.elems i
  support := insert e.id s.support

/-- `LWWSet.Remove`: tombstone an id at a timestamp. Missing id: insert a
synthetic tombstone entry (Go zero values for the other fields). Present
id: flip the tombstone iff the timestamp is strictly higher, or equal
with the stored element live. -/
def LWWSet.Remove (s : LWWSet) (id : Id) (timestamp : Nat) : LWWSet where
  elems := fun i =>
    if i = id then
      match s.elems id with
      | none => some ⟨⟨id, "", [], [], 0, timestamp, true⟩, timestamp, true⟩
      | some existing =>
        if timestamp > existing.timestamp ∨
            (timestamp = existing.timestamp ∧ existing.deleted = false) then
          some ⟨{ existing.entry with deleted := true, updatedAt := timestamp },
                timestamp, true⟩
        else some existing
    else s.elems i
  support := insert id s.support

/-- `LWWSet.Lookup`: the entry iff present and not tombstoned. -/
def LWWSet.Lookup (s : LWWSet) (id : Id) : Option Entry :=
  match s.elems id with
  | none => none
  | some elem => if elem.deleted then none else some elem.entry

/-- `LWWSet.LookupWithDeleted`: the entry, tombstoned or not. -/
def LWWSet.LookupWithDeleted (s : LWWSet) (id : Id) : Option Entry :=
  (s.elems id).map LWWElement.entry

/-- Conflict resolution applied by `LWWSet.Merge` between the local
element `existing` and the remote element `other` stored under the same
map key: higher timestamp wins; at equal timestamp a tombstone beats a
live element; with both live the greater entry-id string wins; otherwise
the existing element is kept. -/
def LWWElement.resolve (existing other : LWWElement) : LWWElement :=
  if other.timestamp > existing.timestamp then other
  else if other.timestamp = existing.timestamp then
    if other.deleted ∧ existing.deleted = false then other
    else if other.deleted = false ∧ existing.deleted = false then
      if goStrGt other.entry.id existing.entry.id then other else existing
    else existing
  else existing

/-- `LWWSet.Merge`: per id, keep the local element where the remote map
has none, copy the remote element where the local map has none, and
resolve with `LWWElement.resolve` where both are present. (The Go loop
over `other.elements` is per-key independent, so it is embedded
pointwise.) -/
def LWWSet.Merge (s other : LWWSet) : LWWSet where
  elems := fun i =>
    match other.elems i with
    | none => s.elems i
    | some otherElem =>
      match s.elems i with
      | none => some otherElem
      | some existing => some (existing.resolve otherElem)
  support := s.support ∪ other.support

/-! ## OR-Set for tags (`internal/crdt/orset.go`) -/

/-- Tokens minted for OR-Set adds. Go uses `uuid.UUID` (128-bit uniques);
only freshness and equality matter, so tokens are embedded as `Nat`. -/
abbrev Token := Nat

/-- `crdt.TagToken`: a `(tag, token)` pair recording one add operation. -/
structure TagToken where
  tag : String
  token : Token
deriving DecidableEq, Repr

/-- `crdt.ORSet`: observed-remove set of tags, as the pair of its
add-table and remove-table (Go `map[TagToken]struct{}` sets). -/
structure ORSet where
  adds : Finset TagToken
  removes : Finset TagToken
deriving DecidableEq

/-- `crdt.NewORSet`: the empty OR-Set. -/
def ORSet.empty : ORSet := ⟨∅, ∅⟩

/-- `ORSet.AddWithToken`: insert `(tag, token)` into the add-table. -/
def ORSet.AddWithToken (s : ORSet) (tag : String) (token : Token) : ORSet :=
  { s with adds := insert ⟨tag, token⟩ s.adds }

/-- `ORSet.Add` mints a fresh `uuid.New()` token and defers to
`AddWithToken`; the minted token is passed explicitly here (the caller
supplies the random draw). -/
def ORSet.Add (s : ORSet) (tag : String) (freshToken : Token) : ORSet :=
  s.AddWithToken tag freshToken

/-- `ORSet.Remove`: mark every currently observed add-token carrying
`tag` as removed (the Go loop over `s.adds` inserts each matching pair
into `removes`; its accumulated effect is this union). -/
def ORSet.Remove (s : ORSet) (tag : String) : ORSet :=
  { s with removes := s.removes ∪ s.adds.filter (fun tt => tt.tag = tag) }

/-- `ORSet.Contains`: a tag is present iff it has at least one add-token
that is not in the remove-table. -/
def ORSet.Contains (s : ORSet) (tag : String) : Prop :=
  ∃ tt ∈ s.adds, tt.tag = tag ∧ tt ∉ s.removes

instance (s : ORSet) (tag : String) : Decidable (s.Contains tag) := by
  unfold ORSet.Contains
  infer_instance

/-- `ORSet.Elements`: the set of tags with at least one surviving add. -/
def ORSet.Elements (s : ORSet) : Finset String :=
  (s.adds.filter (fun tt => tt ∉ s.removes)).image TagToken.tag

/-- `ORSet.Merge`: union the add-tables and union the remove-tables. -/
def ORSet.Merge (s other : ORSet) : ORSet :=
  ⟨s.adds ∪ other.adds, s.removes ∪ other.removes⟩

/-! ## Replica (`internal/crdt`, Replica) -/

/-- Errors returned by replica operations. -/
inductive ReplicaErr where
  | entryNotFound (id : Id)
  | entryDeleted (id : Id)
deriving DecidableEq, Repr

/-- `crdt.Replica`: LWW set of entries, per-entry OR-Sets of tags
(a Go map, embedded as a lookup function plus its key set), and the
Lamport clock. -/
structure Replica where
  entries : LWWSet
  tags : Id → Option ORSet
  tagsSupport : Finset Id
  clock : Clock

/-- `crdt.NewReplica` with a fresh clock at 0. -/
def Replica.empty : Replica :=
  ⟨LWWSet.empty, fun _ => none, ∅, ⟨0⟩⟩

/-- `Replica.AddEntryWithID`: tick the clock, insert a fresh entry (tags
are managed separately via the OR-Set, so the entry's own tag list is
empty) into the LWW set, and, when the tag list is nonempty, create an
OR-Set holding each tag with a freshly minted token. `mint` supplies the
`uuid.New()` draw for each tag. (The Go function also returns the stored
entry with its current tag set, which this embedding omits.) -/
def Replica.AddEntryWithID (r : Replica) (id : Id) (entryType : String)
    (content : Bytes) (tags : List String) (mint : String → Token) : Replica :=
  let (timestamp, clock') := r.clock.Tick
  let e : Entry := ⟨id, entryType, content, [], timestamp, timestamp, false⟩
  let entries' := r.entries.Add e
  if tags = [] then
    { r with entries := entries', clock := clock' }
  else
    let tagSet := tags.foldl (fun ts t => ts.Add t (mint t)) ORSet.empty
    { entries := entries',
      tags := fun i => if i = id then some tagSet else r.tags i,
      tagsSupport := insert id r.tagsSupport,
      clock := clock' }

/-- `Replica.UpdateEntry`: fail with *not-found* when the id is absent
and with *deleted* when the stored entry is tombstoned; otherwise tick
the clock, LWW-add the entry with the new content (if given) at the new
timestamp, and, when a tag list `L` is given, apply replace semantics on
the entry's OR-Set: remove every current tag not in `L` (the per-tag
`Remove` calls accumulate into one union over the matching add-tokens)
and add every tag of `L` not currently present with a fresh token. -/
def Replica.UpdateEntry (r : Replica) (id : Id) (content : Option Bytes)
    (updateTags : Option (List String)) (mint : String → Token) :
    Except ReplicaErr Replica :=
  match r.entries.LookupWithDeleted id with
  | none => .error (.entryNotFound id)
  | some existing =>
    if existing.deleted then .error (.entryDeleted id)
    else
      let (timestamp, clock') := r.clock.Tick
      let updated := { existing with
        content := content.getD existing.content,
        updatedAt := timestamp }
      let entries' := r.entries.Add updated
      match updateTags with
      | none => .ok { r with entries := entries', clock := clock' }
      | some L =>
        let tagSet := (r.tags id).getD ORSet.empty
        let currentTags := tagSet.Elements
        let newTags := L.toFinset
        let afterRemove : ORSet :=
          { tagSet with removes := tagSet.removes ∪
              tagSet.adds.filter (fun tt => tt.tag ∈ currentTags ∧ tt.tag ∉ newTags) }
        let afterAdd : ORSet :=
          { afterRemove with adds := afterRemove.adds ∪
              (newTags \ currentTags).image (fun t => ⟨t, mint t⟩) }
        .ok { entries := entries',
              tags := fun i => if i = id then some afterAdd else r.tags i,
              tagsSupport := insert id r.tagsSupport,
              clock := clock' }

/-- `Replica.DeleteEntry`: fail with *not-found* when the id is absent
from the LWW map (even as a tombstone); otherwise tick the clock and
tombstone the id at the new timestamp. -/
def Replica.DeleteEntry (r : Replica) (id : Id) : Except ReplicaErr Replica :=
  match r.entries.LookupWithDeleted id with
  | none => .error (.entryNotFound id)
  | some _ =>
    let (timestamp, clock') := r.clock.Tick
    .ok { r with entries := r.entries.Remove id timestamp, clock := clock' }

/-- `Replica.MaxTimestamp`: the highest timestamp across all LWW
elements, tombstones included (0 on an empty replica). -/
def Replica.MaxTimestamp (r : Replica) : Nat :=
  r.entries.support.sup fun id =>
    match r.entries.elems id with
    | some elem => elem.timestamp
    | none => 0

/-- `Replica.Merge`: observe the other replica's maximum timestamp on
the clock *first*, then merge the LWW sets and, per entry id, merge the
OR-Sets (copying the other's OR-Set where none exists locally). -/
def Replica.Merge (r other : Replica) : Replica :=
  let otherMaxTime := other.MaxTimestamp
  let (_, clock') := r.clock.Update otherMaxTime
  { entries := r.entries.Merge other.entries,
    tags := fun i =>
      match other.tags i with
      | none => r.tags i
      | some otherTagSet =>
        match r.tags i with
        | some localTagSet => some (localTagSet.Merge otherTagSet)
        | none => some otherTagSet,
    tagsSupport := r.tagsSupport ∪ other.tagsSupport,
    clock := clock' }

/-! ## SHA-256 (FIPS 180-4, as used by `crypto/sha256`)

The blob store names blobs by the SHA-256 hex digest of their bytes and
the sync layer fingerprints serialized state with SHA-256; the hash is
embedded in full. Words are `Nat`s reduced mod `2^32`. -/

/-- `2^32`, the modulus of 32-bit word arithmetic. -/
def U32 : Nat := 2 ^ 32

/-- Right-rotate a 32-bit word by `n`. -/
def rotr32 (n x : Nat) : Nat := ((x >>> n) ||| (x <<< (32 - n))) % U32

/-- Bitwise complement of a 32-bit word. -/
def not32 (x : Nat) : Nat := (U32 - 1) ^^^ x

/-- SHA-256 `Ch(x,y,z) = (x ∧ y) ⊕ (¬x ∧ z)`. -/
def sha256Ch (x y z : Nat) : Nat := (x &&& y) ^^^ (not32 x &&& z)

/-- SHA-256 `Maj(x,y,z) = (x ∧ y) ⊕ (x ∧ z) ⊕ (y ∧ z)`. -/
def sha256Maj (x y z : Nat) : Nat := (x &&& y) ^^^ (x &&& z) ^^^ (y &&& z)

/-- SHA-256 `Σ₀`. -/
def bigSigma0 (x : Nat) : Nat := rotr32 2 x ^^^ rotr32 13 x ^^^ rotr32 22 x

/-- SHA-256 `Σ₁`. -/
def bigSigma1 (x : Nat) : Nat := rotr32 6 x ^^^ rotr32 11 x ^^^ rotr32 25 x

/-- SHA-256 `σ₀`. -/
def smallSigma0 (x : Nat) : Nat := rotr32 7 x ^^^ rotr32 18 x ^^^ (x >>> 3)

/-- SHA-256 `σ₁`. -/
def smallSigma1 (x : Nat) : Nat := rotr32 17 x ^^^ rotr32 19 x ^^^ (x >>> 10)

/-- The 64 SHA-256 round constants (grouped by eight). -/
def sha256K : List Nat :=
  [0x428a2f98, 0x71374491, 0xb5c0fbcf, 0xe9b5dba5,
   0x3956c25b, 0x59f111f1, 0x923f82a4, 0xab1c5ed5] ++
  [0xd807aa98, 0x12835b01, 0x243185be, 0x550c7dc3,
   0x72be5d74, 0x80deb1fe, 0x9bdc06a7, 0xc19bf174] ++
  [0xe49b69c1, 0xefbe4786, 0x0fc19dc6, 0x240ca1cc,
   0x2de92c6f, 0x4a7484aa, 0x5cb0a9dc, 0x76f988da] ++
  [0x983e5152, 0xa831c66d, 0xb00327c8, 0xbf597fc7,
   0xc6e00bf3, 0xd5a79147, 0x06ca6351, 0x14292967] ++
  [0x27b70a85, 0x2e1b2138, 0x4d2c6dfc, 0x53380d13,
   0x650a7354, 0x766a0abb, 0x81c2c92e, 0x92722c85] ++
  [0xa2bfe8a1, 0xa81a664b, 0xc24b8b70, 0xc76c51a3,
   0xd192e819, 0xd6990624, 0xf40e3585, 0x106aa070] ++
  [0x19a4c116, 0x1e376c08, 0x2748774c, 0x34b0bcb5,
   0x391c0cb3, 0x4ed8aa4a, 0x5b9cca4f, 0x682e6ff3] ++
  [0x748f82ee, 0x78a5636f, 0x84c87814, 0x8cc70208,
   0x90befffa, 0xa4506ceb, 0xbef9a3f7, 0xc67178f2]

/-- The SHA-256 initial hash value. -/
def sha256H0 : List Nat :=
  [0x6a09e667, 0xbb67ae85, 0x3c6ef372, 0xa54ff53a,
   0x510e527f, 0x9b05688c, 0x1f83d9ab, 0x5be0cd19]

/-- Big-endian byte serialization of `v` into `n` bytes. -/
def toBytesBE (n v : Nat) : Bytes :=
  (List.range n).map fun i => (v >>> (8 * (n - 1 - i))) % 256

/-- Pad a message per SHA-256: append `0x80`, zero bytes until the
length is 56 mod 64, then the bit length as 8 big-endian bytes. -/
def sha256Pad (msg : Bytes) : Bytes :=
  msg ++ [0x80] ++ List.replicate ((119 - msg.length % 64) % 64) 0
      ++ toBytesBE 8 (msg.length * 8)

/-- Group bytes into big-endian 32-bit words (4 bytes per word). -/
def bytesToWords : Bytes → List Nat
  | b0 :: b1 :: b2 :: b3 :: rest =>
    (((b0 * 256 + b1) * 256 + b2) * 256 + b3) :: bytesToWords rest
  | _ => []

/-- One message-schedule extension step: append
`σ₁(w[n-2]) + w[n-7] + σ₀(w[n-15]) + w[n-16] mod 2^32`. -/
def scheduleStep (w : List Nat) : List Nat :=
  let n := w.length
  w ++ [(smallSigma1 (w.getD (n - 2) 0) + w.getD (n - 7) 0 +
         smallSigma0 (w.getD (n - 15) 0) + w.getD (n - 16) 0) % U32]

/-- The 64-word message schedule from a block's 16 words. -/
def sha256Schedule (w16 : List Nat) : List Nat := scheduleStep^[48] w16

/-- One SHA-256 compression round on working variables `[a..h]`. -/
def sha256Round (vars : List Nat) (ki wi : Nat) : List Nat :=
  match vars with
  | [a, b, c, d, e, f, g, h] =>
    let t1 := (h + bigSigma1 e + sha256Ch e f g + ki + wi) % U32
    let t2 := (bigSigma0 a + sha256Maj a b c) % U32
    [(t1 + t2) % U32, a, b, c, (d + t1) % U32, e, f, g]
  | other => other

/-- Process one 64-byte block, updating the running hash. -/
def sha256Block (h : List Nat) (block : Bytes) : List Nat :=
  let w := sha256Schedule (bytesToWords block)
  let vars := (sha256K.zip w).foldl (fun v kw => sha256Round v kw.1 kw.2) h
  (h.zip vars).map fun p => (p.1 + p.2) % U32

/-- Split a byte list into 64-byte chunks (structural recursion on a
fuel bound so the definition reduces in the kernel). -/
def chunks64Go : Nat → Bytes → List Bytes
  | _, [] => []
  | 0, _ => []
  | fuel + 1, l => l.take 64 :: chunks64Go fuel (l.drop 64)

/-- Split a byte list into 64-byte chunks. -/
def chunks64 (l : Bytes) : List Bytes := chunks64Go l.length l

/-- SHA-256 of a byte string, as 32 digest bytes
(`sha256.Sum256` in Go). -/
def sha256 (msg : Bytes) : Bytes :=
  ((chunks64 (sha256Pad msg)).foldl sha256Block sha256H0).foldr
    (fun w acc => toBytesBE 4 w ++ acc) []

/-- Lower-case hex digit for a nibble. -/
def hexDigit (n : Nat) : Char :=
  if n < 10 then Char.ofNat (48 + n) else Char.ofNat (87 + n)

/-- Lower-case hex encoding of bytes (`hex.EncodeToString` in Go). -/
def hexEncode (bs : Bytes) : String :=
  String.mk (bs.foldr (fun b acc => hexDigit (b / 16) :: hexDigit (b % 16) :: acc) [])

/-- SHA-256 sanity check against the FIPS 180-4 test vector for `"abc"`. -/
theorem sha256_abc :
    hexEncode (sha256 [0x61, 0x62, 0x63]) =
      "ba7816bf8f01cfea414140de5dae2223b00361a396177a9cb410ff61f20015ad" := by
  decide

/-! ## Content-addressed blob store (`internal/blob/store.go`)

The filesystem is embedded as a map from CID to stored bytes (the blob
path is determined by the CID: a two-character prefix directory plus the
full hex digest, so distinct CIDs use distinct paths). -/

/-- `blob.CID`: content identifier, the SHA-256 hex digest. -/
abbrev CID := String

/-- `computeCID`: SHA-256 hex digest of the bytes. -/
def computeCID (data : Bytes) : CID := hexEncode (sha256 data)

/-- The blob directory: CID to stored file content. -/
def BlobStore := CID → Option Bytes

/-- A blob store with no files. -/
def BlobStore.empty : BlobStore := fun _ => none

/-- Blob store read errors. -/
inductive BlobErr where
  | notFound (cid : CID)
  | integrity (expected actual : CID)
deriving DecidableEq, Repr

/-- `Store.Put`: compute the CID; if a file for it already exists,
return the CID unchanged (content-addressed, idempotent); otherwise
write the bytes under the CID. -/
def BlobStore.Put (s : BlobStore) (data : Bytes) : CID × BlobStore :=
  let cid := computeCID data
  match s cid with
  | some _ => (cid, s)
  | none => (cid, fun c => if c = cid then some data else s c)

/-- `Store.Get`: *not-found* when no file exists for the CID; otherwise
recompute the fingerprint of the stored bytes and fail with an
integrity error when it diverges from the CID. -/
def BlobStore.Get (s : BlobStore) (cid : CID) : Except BlobErr Bytes :=
  match s cid with
  | none => .error (.notFound cid)
  | some data =>
    if computeCID data = cid then .ok data
    else .error (.integrity cid (computeCID data))

/-! ## Content AEAD (`internal/crypto`, Encrypt/Decrypt)

The repository wraps XChaCha20-Poly1305 from `golang.org/x/crypto`
(external library code): `Encrypt` draws a random 24-byte nonce,
prepends it, and appends `Seal`'s output; `Decrypt` splits the nonce
off and calls `Open`. The external primitive is embedded as an abstract
seal/unseal pair; the wrapper is embedded exactly, and the random nonce
draw is passed in by the caller. -/

/-- `crypto.NonceSize` (XChaCha20 nonce size). -/
def NonceSize : Nat := 24

/-- An AEAD primitive: `seal key nonce plaintext aad` produces
`ciphertext‖tag`; `unseal key nonce ct aad` authenticates and returns
the plaintext, or `none` on authentication failure. -/
structure AEAD where
  sealFn : Bytes → Bytes → Bytes → Bytes → Bytes
  openFn : Bytes → Bytes → Bytes → Bytes → Option Bytes

/-- `crypto.ErrDecrypt` (the only decrypt-side error). -/
inductive CryptoErr where
  | errDecrypt
deriving DecidableEq, Repr

/-- `crypto.Encrypt`: output `nonce ‖ Seal(key, nonce, plaintext, aad)`.
(Key size cannot be wrong: `crypto.Key` is a 32-byte array.) -/
def Encrypt (A : AEAD) (key plaintext aad nonce : Bytes) : Bytes :=
  nonce ++ A.sealFn key nonce plaintext aad

/-- `crypto.Decrypt`: reject ciphertexts shorter than the nonce, split
off the nonce, and `Open` the remainder; any authentication failure
surfaces as `ErrDecrypt`. -/
def Decrypt (A : AEAD) (key ciphertext aad : Bytes) : Except CryptoErr Bytes :=
  if ciphertext.length < NonceSize then .error .errDecrypt
  else
    let nonce := ciphertext.take NonceSize
    let encryptedMsg := ciphertext.drop NonceSize
    match A.openFn key nonce encryptedMsg aad with
    | some plaintext => .ok plaintext
    | none => .error .errDecrypt

/-! ## Sync protocol message logic (`internal/sync`)

The responder (`p2pService.handleStream`) and the initiator
(`p2pService.SyncWith`) are embedded at the message level. The state
provider is abstract: `getState` is the serialized replica state
(`json.Marshal(GetSyncState())`) and `applyState` merges received
state; `StateHash` is SHA-256 of the serialized state, exactly as in
`EngineAdapter.StateHash`. -/

/-- `sync.MessageType`. -/
inductive MessageType where
  | msgStateHash
  | msgStateRequest
  | msgState
deriving DecidableEq, Repr

/-- `sync.Message`: type tag, session id, and the hash/state payloads
(empty when unused). -/
structure Message where
  type : MessageType
  sessionId : String
  stateHash : Bytes
  state : Bytes
deriving DecidableEq, Repr

/-- A sync state provider over states `σ` (the `StateProvider`
interface), with `getState` returning serialized state bytes. -/
structure SyncProvider (σ : Type) where
  getState : σ → Bytes
  applyState : Bytes → σ → σ

/-- `EngineAdapter.StateHash`: SHA-256 of the serialized state. -/
def SyncProvider.stateHash {σ : Type} (P : SyncProvider σ) (s : σ) : Bytes :=
  sha256 (P.getState s)

/-- `p2pService.handleStream`, message logic: read one message, update
the provider state (only on STATE) and produce the reply. On
FINGERPRINT: reply FINGERPRINT when the hashes match, otherwise reply
with the full serialized state. -/
def handleStream {σ : Type} (P : SyncProvider σ) (s : σ) (msg : Message) :
    σ × Option Message :=
  match msg.type with
  | .msgStateHash =>
    let ourHash := P.stateHash s
    if ourHash = msg.stateHash then
      (s, some ⟨.msgStateHash, msg.sessionId, ourHash, []⟩)
    else
      (s, some ⟨.msgState, msg.sessionId, [], P.getState s⟩)
  | .msgStateRequest =>
    (s, some ⟨.msgState, msg.sessionId, [], P.getState s⟩)
  | .msgState =>
    let s' := P.applyState msg.state s
    (s', some ⟨.msgStateHash, msg.sessionId, P.stateHash s', []⟩)

/-- `p2pService.SyncWith`, reaction to the responder's reply: on
FINGERPRINT the hashes matched and the sync completes with nothing more
sent; on STATE the state is applied and the sync completes; on
STATE_REQUEST the serialized state is sent back. -/
def syncWithReact {σ : Type} (P : SyncProvider σ) (s : σ) (resp : Message) :
    σ × Option Message :=
  match resp.type with
  | .msgStateHash => (s, none)
  | .msgState => (P.applyState resp.state s, none)
  | .msgStateRequest => (s, some ⟨.msgState, resp.sessionId, [], P.getState s⟩)

/-- One full sync session between initiator `a` and responder `b`:
returns (frames sent a→b, frames sent b→a, final initiator state,
final responder state). The initiator opens with
`FINGERPRINT(stateHash a)`; the responder replies per `handleStream`;
the initiator reacts per `syncWithReact`. -/
def syncExchange {σ : Type} (P : SyncProvider σ) (a b : σ) (sid : String) :
    List Message × List Message × σ × σ :=
  let m1 : Message := ⟨.msgStateHash, sid, P.stateHash a, []⟩
  let (b', reply) := handleStream P b m1
  match reply with
  | none => ([m1], [], a, b')
  | some resp =>
    let (a', followup) := syncWithReact P a resp
    (m1 :: followup.toList, [resp], a', b')

/-! ## SQLite materialized view (`internal/storage/sqlite/sqlite.go`)

The two relations are embedded directly: `entries` as a map from id to
row, `tags` as the set of `(entry_id, tag)` rows (the composite primary
key makes the table a set). The upsert is the semantics of the SQL
statement the source executes. -/

/-- `boolToInt`: tombstone flag as the stored INTEGER column. -/
def boolToInt (b : Bool) : Nat := if b then 1 else 0

/-- A row of the `entries` table (minus the id, which is the key). -/
structure DBRow where
  type : String
  content : Bytes
  createdAt : Nat
  updatedAt : Nat
  deleted : Nat
deriving DecidableEq, Repr

/-- The SQLite database: `entries` and `tags` relations. -/
structure DB where
  entries : Id → Option DBRow
  tagRows : Finset (Id × String)

/-- The upsert executed by `Put` and by the put branch of `ApplyBatch`:
`INSERT … ON CONFLICT(id) DO UPDATE SET type, content, updated_at,
deleted = excluded` — on conflict `created_at` is not in the update
list and keeps its stored value. -/
def upsertRow (old : Option DBRow) (e : Entry) : DBRow :=
  match old with
  | none => ⟨e.type, e.content, e.createdAt, e.updatedAt, boolToInt e.deleted⟩
  | some row => ⟨e.type, e.content, row.createdAt, e.updatedAt, boolToInt e.deleted⟩

/-- Replace the tag rows of one entry: `DELETE FROM tags WHERE
entry_id = ?` then one `INSERT` per tag of the entry. -/
def replaceTagRows (rows : Finset (Id × String)) (e : Entry) :
    Finset (Id × String) :=
  rows.filter (fun r => r.1 ≠ e.id) ∪ e.tags.toFinset.image (fun t => (e.id, t))

/-- `SQLiteStore.Put`: upsert the entry row, then replace its tag rows,
in one transaction. -/
def SQLiteStore.Put (db : DB) (e : Entry) : DB where
  entries := fun i => if i = e.id then some (upsertRow (db.entries e.id) e) else db.entries i
  tagRows := replaceTagRows db.tagRows e

/-- `storage.Operation` types. -/
inductive OpType where
  | opPut
  | opDelete
deriving DecidableEq, Repr

/-- `storage.Operation`: an op type with its entry. -/
structure Operation where
  type : OpType
  entry : Entry

/-- One step of `SQLiteStore.ApplyBatch`: the put branch repeats the
same upsert-and-replace-tags SQL as `Put`; the delete branch runs
`UPDATE entries SET deleted = 1 WHERE id = ?` (touching no other
column and no tag rows). -/
def applyBatchOp (db : DB) (op : Operation) : DB :=
  match op.type with
  | .opPut =>
    { entries := fun i =>
        if i = op.entry.id then some (upsertRow (db.entries op.entry.id) op.entry)
        else db.entries i,
      tagRows := replaceTagRows db.tagRows op.entry }
  | .opDelete =>
    { db with entries := fun i =>
        if i = op.entry.id then (db.entries i).map (fun r => { r with deleted := 1 })
        else db.entries i }

/-- `SQLiteStore.ApplyBatch`: apply the operations in order (one
transaction; atomicity is outside this embedding). -/
def SQLiteStore.ApplyBatch (db : DB) (ops : List Operation) : DB :=
  ops.foldl applyBatchOp db

/-! ## Helper lemmas -/

/-- Go string comparison is irreflexive on character lists. -/
theorem goCharsLt_self (l : List Char) : goCharsLt l l = false := by
  induction l with
  | nil => rfl
  | cons a as ih => simp [goCharsLt, ih]

/-- Go string `>` is irreflexive: `s > s` is false. -/
theorem goStrGt_self (s : String) : goStrGt s s = false := by
  simp [goStrGt, goCharsLt_self]

/-! ## Claims -/

/-- Mint function used where no token is ever drawn (entries carry no
tags in the scenario). -/
def c1Mint : String → Token := fun _ => 0

/-- Replica that adds entry id `"id0"` with content byte `97` as its
first operation (Lamport time 1). -/
def c1ReplicaA : Replica :=
  Replica.empty.AddEntryWithID "id0" "note" [97] [] c1Mint

/-- Replica that adds entry id `"id0"` with content byte `98` as its
first operation (Lamport time 1). -/
def c1ReplicaB : Replica :=
  Replica.empty.AddEntryWithID "id0" "note" [98] [] c1Mint

/-- C1: replica merge is *not* commutative. Two replicas each add an
entry under the same id as their first operation (both at Lamport
time 1, with different contents). After cross-merging, each replica
keeps its own element: the equal-timestamp live/live tie-break compares
the element's id string with itself (both elements sit under the same
map key), so it never selects the remote element, and the two replicas
end in different states — contradicting the commutativity stated by the
spec and by `LWWSet.Merge`'s own documentation comment. -/
theorem merge_not_commutative_at_equal_timestamp :
    (c1ReplicaA.Merge c1ReplicaB).entries.elems "id0" =
      some ⟨⟨"id0", "note", [97], [], 1, 1, false⟩, 1, false⟩ ∧
    (c1ReplicaB.Merge c1ReplicaA).entries.elems "id0" =
      some ⟨⟨"id0", "note", [98], [], 1, 1, false⟩, 1, false⟩ ∧
    (c1ReplicaA.Merge c1ReplicaB).entries.elems "id0" ≠
      (c1ReplicaB.Merge c1ReplicaA).entries.elems "id0" := by
  refine ⟨by decide, by decide, by decide⟩

/-- The live element stored for C2's counterexample. -/
def c2Live : Entry := ⟨"id0", "note", [97], [], 1, 1, false⟩

/-- The equal-timestamp tombstone added in C2's counterexample. -/
def c2Tomb : Entry := ⟨"id0", "note", [97], [], 1, 1, true⟩

/-- LWW set holding the live element at timestamp 1. -/
def c2Set : LWWSet := LWWSet.empty.Add c2Live

/-- C2 counterexample: `Add` of a tombstone at an equal timestamp does
*not* replace the live element (the add is a no-op), although `Merge`
resolves the very same conflict to the tombstone — so the tie-break
rules do not apply identically in add and merge. -/
theorem add_tombstone_equal_timestamp_not_replacing :
    (c2Set.Add c2Tomb).elems "id0" = some ⟨c2Live, 1, false⟩ ∧
    (c2Set.Add c2Tomb).elems "id0" ≠ some ⟨c2Tomb, 1, true⟩ ∧
    (c2Set.Merge (LWWSet.empty.Add c2Tomb)).elems "id0" =
      some ⟨c2Tomb, 1, true⟩ := by
  refine ⟨by decide, by decide, by decide⟩

/-- C2 (amended): in `Add`, an element whose timestamp equals the stored
element's timestamp is always a no-op when the ids coincide (the id
tie-break compares the id string with itself), tombstone flag
regardless; in `Merge`, an equal-timestamp tombstone does win over a
live element. -/
theorem add_equal_timestamp_noop_merge_tombstone_wins :
    (∀ (s : LWWSet) (e : Entry) (existing : LWWElement),
      s.elems e.id = some existing → existing.entry.id = e.id →
      e.updatedAt = existing.timestamp → (s.Add e).elems = s.elems) ∧
    (∀ (s o : LWWSet) (id : Id) (existing otherElem : LWWElement),
      s.elems id = some existing → o.elems id = some otherElem →
      otherElem.timestamp = existing.timestamp →
      otherElem.deleted = true → existing.deleted = false →
      (s.Merge o).elems id = some otherElem) := by
  constructor
  · intro s e existing hs hid ht
    funext i
    by_cases hi : i = e.id
    · subst hi
      simp only [LWWSet.Add, if_pos rfl, hs]
      rw [ht, hid, goStrGt_self]
      simp [hs]
    · simp [LWWSet.Add, hi]
  · intro s o id existing otherElem hs ho ht htomb hlive
    simp [LWWSet.Merge, ho, hs, LWWElement.resolve, ht, htomb, hlive]

/-- Witness for the amended C2 theorem at the counterexample data:
the equal-timestamp tombstone add leaves the set unchanged, and merge
resolves the same conflict to the tombstone. -/
theorem add_equal_timestamp_noop_merge_tombstone_wins_witness :
    (c2Set.Add c2Tomb).elems = c2Set.elems ∧
    (c2Set.Merge (LWWSet.empty.Add c2Tomb)).elems "id0" =
      some ⟨c2Tomb, 1, true⟩ :=
  ⟨add_equal_timestamp_noop_merge_tombstone_wins.1 c2Set c2Tomb
      ⟨c2Live, 1, false⟩ (by decide) (by decide) (by decide),
   add_equal_timestamp_noop_merge_tombstone_wins.2 c2Set
      (LWWSet.empty.Add c2Tomb) "id0" ⟨c2Live, 1, false⟩ ⟨c2Tomb, 1, true⟩
      (by decide) (by decide) (by decide) (by decide) (by decide)⟩

/-- C3 counterexample: `Replica.DeleteEntry` on an id absent from the
replica fails with *not-found* instead of succeeding idempotently. -/
theorem deleteEntry_missing_id_fails_not_found :
    Replica.empty.DeleteEntry "id0" = .error (.entryNotFound "id0") := rfl

/-- C3 (amended): `Replica.DeleteEntry` on a missing id returns
*not-found*; it is the LWW-set level `Remove` that is idempotent on a
missing id, inserting a synthetic tombstone element at the supplied
time, after which an `Add` of an entry for that id with a lower
timestamp is suppressed. -/
theorem remove_missing_id_tombstone_and_suppression :
    (∀ (r : Replica) (id : Id), r.entries.elems id = none →
      r.DeleteEntry id = .error (.entryNotFound id)) ∧
    (∀ (s : LWWSet) (id : Id) (t : Nat), s.elems id = none →
      (s.Remove id t).elems id =
        some ⟨⟨id, "", [], [], 0, t, true⟩, t, true⟩) ∧
    (∀ (s : LWWSet) (id : Id) (t : Nat) (e : Entry), s.elems id = none →
      e.id = id → e.updatedAt < t →
      ((s.Remove id t).Add e).elems = (s.Remove id t).elems) := by
  refine ⟨?_, ?_, ?_⟩
  · intro r id h
    simp [Replica.DeleteEntry, LWWSet.LookupWithDeleted, h]
  · intro s id t h
    simp [LWWSet.Remove, h]
  · intro s id t e h hid ht
    funext i
    by_cases hi : i = e.id
    · subst hi
      simp only [LWWSet.Add, if_pos rfl, LWWSet.Remove, hid, if_pos rfl, h]
      have h1 : ¬ e.updatedAt > t := Nat.not_lt.mpr (Nat.le_of_lt ht)
      have h2 : e.updatedAt ≠ t := Nat.ne_of_lt ht
      simp [h1, h2]
    · simp [LWWSet.Add, hi]

/-- Witness for the amended C3 theorem: on an empty replica the delete
fails with *not-found*; on an empty LWW set, `Remove` at time 5 leaves a
synthetic tombstone and a subsequent add at time 1 changes nothing. -/
theorem remove_missing_id_tombstone_and_suppression_witness :
    Replica.empty.DeleteEntry "id0" = .error (.entryNotFound "id0") ∧
    (LWWSet.empty.Remove "id0" 5).elems "id0" =
      some ⟨⟨"id0", "", [], [], 0, 5, true⟩, 5, true⟩ ∧
    ((LWWSet.empty.Remove "id0" 5).Add
        ⟨"id0", "note", [97], [], 1, 1, false⟩).elems =
      (LWWSet.empty.Remove "id0" 5).elems :=
  ⟨remove_missing_id_tombstone_and_suppression.1 Replica.empty "id0" rfl,
   remove_missing_id_tombstone_and_suppression.2.1 LWWSet.empty "id0" 5 rfl,
   remove_missing_id_tombstone_and_suppression.2.2 LWWSet.empty "id0" 5
      ⟨"id0", "note", [97], [], 1, 1, false⟩ rfl rfl (by decide)⟩

/-- C4: tag replace semantics of `Replica.UpdateEntry`. For a live entry
with OR-Set `ts` (current element set `C = ts.Elements`) updated with
tag list `L` (set `N`), the update succeeds and the entry's OR-Set
afterwards (i) has exactly the old add-tokens plus one fresh token per
tag of `N \ C`, (ii) has exactly the old remove-tokens plus the
locally observed add-tokens of tags in `C \ N`, (iii) no longer
contains the tags of `C \ N`, (iv) tombstones only locally observed
tokens, (v) contains each tag of `N \ C` via its fresh token, and
(vi) leaves every existing add-token whose tag is in `C ∩ N` untouched
(still present, and in the remove-table iff it was before). `mint`
supplies the fresh `uuid.New()` draws, assumed fresh. -/
theorem updateEntry_tag_replace_semantics
    (r : Replica) (id : Id) (content : Option Bytes) (L : List String)
    (mint : String → Token) (existing : Entry) (ts : ORSet)
    (hlook : r.entries.LookupWithDeleted id = some existing)
    (hlive : existing.deleted = false)
    (htags : r.tags id = some ts)
    (hfA : ∀ t, (⟨t, mint t⟩ : TagToken) ∉ ts.adds)
    (hfR : ∀ t, (⟨t, mint t⟩ : TagToken) ∉ ts.removes) :
    ∃ r', r.UpdateEntry id content (some L) mint = .ok r' ∧
      ∃ ts', r'.tags id = some ts' ∧
        ts'.adds = ts.adds ∪
          (L.toFinset \ ts.Elements).image (fun t => ⟨t, mint t⟩) ∧
        ts'.removes = ts.removes ∪
          ts.adds.filter (fun tt => tt.tag ∈ ts.Elements ∧ tt.tag ∉ L.toFinset) ∧
        (∀ t ∈ ts.Elements, t ∉ L.toFinset → ¬ ts'.Contains t) ∧
        ts'.removes ⊆ ts.removes ∪ ts.adds ∧
        (∀ t ∈ L.toFinset, t ∉ ts.Elements →
          (⟨t, mint t⟩ : TagToken) ∈ ts'.adds ∧ ts'.Contains t) ∧
        (∀ tt ∈ ts.adds, tt.tag ∈ ts.Elements → tt.tag ∈ L.toFinset →
          tt ∈ ts'.adds ∧ (tt ∈ ts'.removes ↔ tt ∈ ts.removes)) := by
  unfold Replica.UpdateEntry
  rw [hlook]
  simp only [hlive, Bool.false_eq_true, if_false]
  refine ⟨_, rfl, ?_⟩
  refine ⟨⟨ts.adds ∪ (L.toFinset \ ts.Elements).image (fun t => ⟨t, mint t⟩),
           ts.removes ∪ ts.adds.filter
             (fun tt => tt.tag ∈ ts.Elements ∧ tt.tag ∉ L.toFinset)⟩,
          ?_, rfl, rfl, ?_, ?_, ?_, ?_⟩
  · simp [htags]
  · intro t htC htN hcon
    obtain ⟨tt, httA, htag, httR⟩ := hcon
    rcases Finset.mem_union.1 httA with h | h
    · exact httR (Finset.mem_union_right _
        (Finset.mem_filter.2 ⟨h, htag ▸ htC, htag ▸ htN⟩))
    · obtain ⟨u, hu, huv⟩ := Finset.mem_image.1 h
      have : u = t := by rw [← htag, ← huv]
      subst this
      exact htN (Finset.mem_sdiff.1 hu).1
  · exact Finset.union_subset_union_right (Finset.filter_subset _ _)
  · intro t htN htC
    have hmem : (⟨t, mint t⟩ : TagToken) ∈ ts.adds ∪
        (L.toFinset \ ts.Elements).image (fun t => ⟨t, mint t⟩) :=
      Finset.mem_union_right _
        (Finset.mem_image_of_mem _ (Finset.mem_sdiff.2 ⟨htN, htC⟩))
    refine ⟨hmem, ⟨⟨t, mint t⟩, hmem, rfl, ?_⟩⟩
    intro hrem
    rcases Finset.mem_union.1 hrem with h | h
    · exact hfR t h
    · exact hfA t (Finset.mem_filter.1 h).1
  · intro tt httA _ htN
    refine ⟨Finset.mem_union_left _ httA, ?_⟩
    constructor
    · intro h
      rcases Finset.mem_union.1 h with h | h
      · exact h
      · exact absurd htN (Finset.mem_filter.1 h).2.2
    · exact fun h => Finset.mem_union_left _ h

/-- OR-Set used in the C4 witness: tags `"a"` and `"b"` live, nothing
removed. -/
def c4TagSet : ORSet := ⟨{⟨"a", 1⟩, ⟨"b", 2⟩}, ∅⟩

/-- Replica used in the C4 witness: one live entry `"id0"` carrying the
OR-Set above. -/
def c4Replica : Replica :=
  { entries := LWWSet.empty.Add ⟨"id0", "note", [97], [], 1, 1, false⟩,
    tags := fun i => if i = "id0" then some c4TagSet else none,
    tagsSupport := {"id0"},
    clock := ⟨1⟩ }

/-- Fresh-token mint for the C4 witness. -/
def c4Mint : String → Token := fun _ => 100

/-- Witness for C4: updating entry `"id0"` (current tags `{a, b}`) with
tag list `["b", "c"]` on the concrete replica. -/
theorem updateEntry_tag_replace_semantics_witness :
    c4Replica.entries.LookupWithDeleted "id0" =
      some ⟨"id0", "note", [97], [], 1, 1, false⟩ ∧
    (∀ t, (⟨t, c4Mint t⟩ : TagToken) ∉ c4TagSet.adds) ∧
    (∃ r', c4Replica.UpdateEntry "id0" none (some ["b", "c"]) c4Mint = .ok r' ∧
      ∃ ts', r'.tags "id0" = some ts' ∧
        ts'.adds = c4TagSet.adds ∪
          (["b", "c"].toFinset \ c4TagSet.Elements).image
            (fun t => ⟨t, c4Mint t⟩) ∧
        ts'.removes = c4TagSet.removes ∪
          c4TagSet.adds.filter
            (fun tt => tt.tag ∈ c4TagSet.Elements ∧ tt.tag ∉ ["b", "c"].toFinset) ∧
        (∀ t ∈ c4TagSet.Elements, t ∉ ["b", "c"].toFinset → ¬ ts'.Contains t) ∧
        ts'.removes ⊆ c4TagSet.removes ∪ c4TagSet.adds ∧
        (∀ t ∈ ["b", "c"].toFinset, t ∉ c4TagSet.Elements →
          (⟨t, c4Mint t⟩ : TagToken) ∈ ts'.adds ∧ ts'.Contains t) ∧
        (∀ tt ∈ c4TagSet.adds, tt.tag ∈ c4TagSet.Elements →
          tt.tag ∈ ["b", "c"].toFinset →
          tt ∈ ts'.adds ∧ (tt ∈ ts'.removes ↔ tt ∈ c4TagSet.removes))) :=
  ⟨by decide,
   by intro t; simp [c4TagSet, c4Mint],
   updateEntry_tag_replace_semantics c4Replica "id0" none ["b", "c"] c4Mint
     ⟨"id0", "note", [97], [], 1, 1, false⟩ c4TagSet (by decide) rfl
     (by simp [c4Replica])
     (by intro t; simp [c4TagSet, c4Mint])
     (by intro t; simp [c4TagSet])⟩

/-- Replica whose single LWW element sits at the maximal `uint64`
timestamp `2^64 - 1` (the state a peer presents after its clock reached
the top of the `uint64` range; `LoadState`/merge absorb arbitrary remote
timestamps). -/
def c5ReplicaB : Replica :=
  { entries := ⟨fun i => if i = "id0" then
        some ⟨⟨"id0", "note", [], [], U64 - 1, U64 - 1, false⟩, U64 - 1, false⟩
      else none, {"id0"}⟩,
    tags := fun _ => none,
    tagsSupport := ∅,
    clock := ⟨U64 - 1⟩ }

/-- C5 counterexample: merging a replica whose maximum timestamp is
`2^64 - 1` wraps the `uint64` clock (`max(local, remote) + 1` overflows
to 0), so `Now()` is *not* strictly greater than the absorbed maximum
timestamp. -/
theorem merge_clock_wraps_at_uint64_max :
    c5ReplicaB.MaxTimestamp = U64 - 1 ∧
    (Replica.empty.Merge c5ReplicaB).clock.Now = 0 ∧
    ¬ (Replica.empty.Merge c5ReplicaB).clock.Now > c5ReplicaB.MaxTimestamp := by
  refine ⟨by decide, by decide, by decide⟩

/-- C5 (amended): away from the top of the `uint64` range (both the
local clock and the absorbed maximum timestamp at least 2 below
`2^64`), after `A.Merge(B)` the clock reads strictly above
`B.MaxTimestamp` — the clock is updated *before* state is merged — and
the next local tick is strictly above it as well. -/
theorem merge_clock_dominance (A B : Replica)
    (hA : A.clock.time + 2 < U64) (hB : B.MaxTimestamp + 2 < U64) :
    (A.Merge B).clock.Now > B.MaxTimestamp ∧
    ((A.Merge B).clock.Tick).1 > B.MaxTimestamp := by
  have hclock : (A.Merge B).clock =
      ⟨((if B.MaxTimestamp > A.clock.time then B.MaxTimestamp
         else A.clock.time) + 1) % U64⟩ := rfl
  rw [hclock]
  have h1 : (if B.MaxTimestamp > A.clock.time then B.MaxTimestamp
      else A.clock.time) + 1 < U64 := by split <;> omega
  have h2 : B.MaxTimestamp ≤
      (if B.MaxTimestamp > A.clock.time then B.MaxTimestamp
       else A.clock.time) := by split <;> omega
  have h3 : (if B.MaxTimestamp > A.clock.time then B.MaxTimestamp
      else A.clock.time) + 2 < U64 := by split <;> omega
  simp only [Clock.Now, Clock.Tick]
  rw [Nat.mod_eq_of_lt h1, Nat.mod_eq_of_lt (by omega : _ + 1 + 1 < U64)]
  omega

/-- Witness for the amended C5 theorem on two fresh replicas. -/
theorem merge_clock_dominance_witness :
    Replica.empty.clock.time + 2 < U64 ∧
    Replica.empty.MaxTimestamp + 2 < U64 ∧
    ((Replica.empty.Merge Replica.empty).clock.Now >
        Replica.empty.MaxTimestamp ∧
      ((Replica.empty.Merge Replica.empty).clock.Tick).1 >
        Replica.empty.MaxTimestamp) :=
  ⟨by decide, by decide,
   merge_clock_dominance Replica.empty Replica.empty (by decide) (by decide)⟩

/-- C6: observed-remove survival. Replicas A and B each add `tag` to
the same entry's OR-Set with distinct freshly minted tokens (`ta` on A,
`tb` on B, with B's pair unknown to A and nowhere tombstoned); A then
removes `tag`, tombstoning only the tokens it has observed. After
merging each way, both OR-Sets still contain the tag: B's add-token
survives A's remove, because a tag is present iff it has at least one
add-token not in the remove-table. -/
theorem orset_concurrent_add_remove_survival
    (A B : ORSet) (tag : String) (ta tb : Token)
    (hne : tb ≠ ta)
    (hA : (⟨tag, tb⟩ : TagToken) ∉ A.adds)
    (hAr : (⟨tag, tb⟩ : TagToken) ∉ A.removes)
    (hBr : (⟨tag, tb⟩ : TagToken) ∉ B.removes) :
    (((A.Add tag ta).Remove tag).Merge (B.Add tag tb)).Contains tag ∧
    ((B.Add tag tb).Merge ((A.Add tag ta).Remove tag)).Contains tag := by
  have hadds : (⟨tag, tb⟩ : TagToken) ∈ (B.Add tag tb).adds := by
    simp [ORSet.Add, ORSet.AddWithToken]
  have hrem : (⟨tag, tb⟩ : TagToken) ∉ ((A.Add tag ta).Remove tag).removes := by
    simp only [ORSet.Remove, ORSet.Add, ORSet.AddWithToken, Finset.mem_union,
      Finset.mem_filter, Finset.mem_insert, not_or]
    refine ⟨hAr, ?_⟩
    rintro ⟨h | h, -⟩
    · exact hne (congrArg TagToken.token h)
    · exact hA h
  have hrem' : (⟨tag, tb⟩ : TagToken) ∉ (B.Add tag tb).removes := hBr
  constructor
  · exact ⟨⟨tag, tb⟩, Finset.mem_union_right _ hadds, rfl, by
      simp only [ORSet.Merge, Finset.mem_union, not_or]
      exact ⟨hrem, hrem'⟩⟩
  · exact ⟨⟨tag, tb⟩, Finset.mem_union_left _ hadds, rfl, by
      simp only [ORSet.Merge, Finset.mem_union, not_or]
      exact ⟨hrem', hrem⟩⟩

/-- Witness for C6 on two empty OR-Sets with tokens 0 and 1 for tag
`"x"`. -/
theorem orset_concurrent_add_remove_survival_witness :
    (1 : Token) ≠ 0 ∧
    (((ORSet.empty.Add "x" 0).Remove "x").Merge
        (ORSet.empty.Add "x" 1)).Contains "x" ∧
    ((ORSet.empty.Add "x" 1).Merge
        ((ORSet.empty.Add "x" 0).Remove "x")).Contains "x" :=
  ⟨by decide,
   orset_concurrent_add_remove_survival ORSet.empty ORSet.empty "x" 0 1
     (by decide) (by decide) (by decide) (by decide)⟩

/-- C7: blob store round trip. `Put` returns the SHA-256 hex
fingerprint of the bytes and stores them so that `Get` on that CID
returns them (provided the slot for that CID is empty or already holds
the same bytes — `Put` never overwrites an existing blob file); and on
any CID whose stored bytes do not hash back to it, `Get` fails with an
integrity error. -/
theorem blob_put_get_roundtrip (s : BlobStore) (b : Bytes)
    (hslot : s (computeCID b) = none ∨ s (computeCID b) = some b) :
    (s.Put b).1 = computeCID b ∧
    (s.Put b).2.Get (computeCID b) = .ok b ∧
    (∀ cid d, s cid = some d → computeCID d ≠ cid →
      s.Get cid = .error (.integrity cid (computeCID d))) := by
  refine ⟨?_, ?_, ?_⟩
  · unfold BlobStore.Put
    rcases hslot with h | h <;> simp [h]
  · unfold BlobStore.Put BlobStore.Get
    rcases hslot with h | h <;> simp [h]
  · intro cid d hd hne
    unfold BlobStore.Get
    simp [hd, hne]

/-- Witness for C7: putting bytes `"abc"` into the empty blob store. -/
theorem blob_put_get_roundtrip_witness :
    BlobStore.empty (computeCID [97, 98, 99]) = none ∧
    ((BlobStore.empty.Put [97, 98, 99]).1 = computeCID [97, 98, 99] ∧
     (BlobStore.empty.Put [97, 98, 99]).2.Get (computeCID [97, 98, 99]) =
        .ok [97, 98, 99] ∧
     (∀ cid d, BlobStore.empty cid = some d → computeCID d ≠ cid →
        BlobStore.empty.Get cid = .error (.integrity cid (computeCID d)))) :=
  ⟨rfl, blob_put_get_roundtrip BlobStore.empty [97, 98, 99] (Or.inl rfl)⟩

/-- C8: AEAD round trip and id binding for the repository's
`Encrypt`/`Decrypt` wrappers, stated for any AEAD core satisfying the
standard correctness and associated-data-binding laws (the core itself
is XChaCha20-Poly1305 from `golang.org/x/crypto`, external to the
repository): decrypting under the same key and the entry id used as
associated data returns the payload, and decrypting the same ciphertext
with a different entry id as associated data fails with `ErrDecrypt`
and never yields a plaintext. -/
theorem aead_roundtrip_and_id_binding
    (A : AEAD) (key p id id' nonce : Bytes)
    (hrt : ∀ k n pt a, A.openFn k n (A.sealFn k n pt a) a = some pt)
    (hbind : ∀ k n pt a a', a ≠ a' → A.openFn k n (A.sealFn k n pt a) a' = none)
    (hn : nonce.length = NonceSize) (hid : id ≠ id') :
    Decrypt A key (Encrypt A key p id nonce) id = .ok p ∧
    Decrypt A key (Encrypt A key p id nonce) id' = .error .errDecrypt := by
  have hlen : ¬ (Encrypt A key p id nonce).length < NonceSize := by
    simp only [Encrypt, List.length_append, hn]
    omega
  have htake : (Encrypt A key p id nonce).take NonceSize = nonce := by
    rw [Encrypt, ← hn, List.take_left]
  have hdrop : (Encrypt A key p id nonce).drop NonceSize =
      A.sealFn key nonce p id := by
    rw [Encrypt, ← hn, List.drop_left]
  constructor
  · simp only [Decrypt, if_neg hlen, htake, hdrop, hrt]
  · simp only [Decrypt, if_neg hlen, htake, hdrop, hbind key nonce p id id' hid]

/-- Idealized AEAD core used to witness C8: sealing records the
associated data (length-prefixed) followed by the plaintext; opening
checks the recorded associated data against the supplied one. -/
def toyAEAD : AEAD where
  sealFn := fun _ _ pt a => a.length :: a ++ pt
  openFn := fun _ _ c a =>
    if c.take (a.length + 1) = a.length :: a then some (c.drop (a.length + 1))
    else none

/-- The idealized core satisfies the AEAD correctness law. -/
theorem toyAEAD_roundtrip :
    ∀ k n pt a, toyAEAD.openFn k n (toyAEAD.sealFn k n pt a) a = some pt := by
  intro k n pt a
  show (if (a.length :: a ++ pt).take (a.length + 1) = a.length :: a then
      some ((a.length :: a ++ pt).drop (a.length + 1)) else none) = some pt
  rw [List.take_left' (by simp), if_pos rfl, List.drop_left' (by simp)]

/-- The idealized core satisfies the associated-data-binding law. -/
theorem toyAEAD_binding :
    ∀ k n pt a a', a ≠ a' →
      toyAEAD.openFn k n (toyAEAD.sealFn k n pt a) a' = none := by
  intro k n pt a a' hne
  show (if (a.length :: a ++ pt).take (a'.length + 1) = a'.length :: a' then
      some ((a.length :: a ++ pt).drop (a'.length + 1)) else none) = none
  rw [if_neg]
  intro h
  rw [List.cons_append, List.take_succ_cons] at h
  injection h with h1 h2
  rw [← h1, List.take_left] at h2
  exact hne h2

/-- Witness for C8: a concrete 32-byte key, payload `[1, 2]`, entry ids
`[5]` and `[6]`, and a 24-byte nonce, under the idealized AEAD core. -/
theorem aead_roundtrip_and_id_binding_witness :
    (List.replicate 24 0 : Bytes).length = NonceSize ∧
    ([5] : Bytes) ≠ [6] ∧
    (Decrypt toyAEAD (List.replicate 32 7)
        (Encrypt toyAEAD (List.replicate 32 7) [1, 2] [5]
          (List.replicate 24 0)) [5] = .ok [1, 2] ∧
     Decrypt toyAEAD (List.replicate 32 7)
        (Encrypt toyAEAD (List.replicate 32 7) [1, 2] [5]
          (List.replicate 24 0)) [6] = .error .errDecrypt) :=
  ⟨by decide, by decide,
   aead_roundtrip_and_id_binding toyAEAD (List.replicate 32 7) [1, 2]
     [5] [6] (List.replicate 24 0) toyAEAD_roundtrip toyAEAD_binding
     (by decide) (by decide)⟩

/-- C9: fingerprint short-circuit. When the initiator's and responder's
serialized states are equal, the whole sync session consists of exactly
one FINGERPRINT frame in each direction (carrying the common hash):
the responder answers the matching FINGERPRINT with a FINGERPRINT and no
STATE frame, the initiator completes successfully sending nothing more,
and neither side's state changes. -/
theorem fingerprint_short_circuit {σ : Type} (P : SyncProvider σ) (a b : σ)
    (sid : String) (hstate : P.getState a = P.getState b) :
    syncExchange P a b sid =
      ([⟨.msgStateHash, sid, P.stateHash a, []⟩],
       [⟨.msgStateHash, sid, P.stateHash a, []⟩], a, b) ∧
    (∀ m ∈ (syncExchange P a b sid).1, m.type ≠ .msgState) ∧
    (∀ m ∈ (syncExchange P a b sid).2.1, m.type ≠ .msgState) := by
  have hhash : P.stateHash b = P.stateHash a := by
    unfold SyncProvider.stateHash
    rw [hstate]
  have hmain : syncExchange P a b sid =
      ([⟨.msgStateHash, sid, P.stateHash a, []⟩],
       [⟨.msgStateHash, sid, P.stateHash a, []⟩], a, b) := by
    unfold syncExchange handleStream syncWithReact
    simp [hhash]
  refine ⟨hmain, ?_, ?_⟩
  · rw [hmain]
    intro m hm
    rw [List.mem_singleton.1 hm]
    exact fun h => MessageType.noConfusion h
  · rw [hmain]
    intro m hm
    rw [List.mem_singleton.1 hm]
    exact fun h => MessageType.noConfusion h

/-- Sync provider over raw byte states used in the C9 witness. -/
def c9Provider : SyncProvider Bytes := ⟨fun s => s, fun _ s => s⟩

/-- Witness for C9: two providers over the same serialized state. -/
theorem fingerprint_short_circuit_witness :
    c9Provider.getState [1] = c9Provider.getState [1] ∧
    (syncExchange c9Provider [1] [1] "sid" =
      ([⟨.msgStateHash, "sid", c9Provider.stateHash [1], []⟩],
       [⟨.msgStateHash, "sid", c9Provider.stateHash [1], []⟩], [1], [1]) ∧
     (∀ m ∈ (syncExchange c9Provider [1] [1] "sid").1, m.type ≠ .msgState) ∧
     (∀ m ∈ (syncExchange c9Provider [1] [1] "sid").2.1,
        m.type ≠ .msgState)) :=
  ⟨rfl, fingerprint_short_circuit c9Provider [1] [1] "sid" rfl⟩

/-- One batch step keeps the `created_at` column of every pre-existing
row: the put branch upserts without touching `created_at`, the delete
branch only sets the tombstone column. -/
theorem applyBatchOp_preserves_created_at (db : DB) (op : Operation)
    (id : Id) (r0 : DBRow) (h : db.entries id = some r0) :
    ∃ r1, (applyBatchOp db op).entries id = some r1 ∧
      r1.createdAt = r0.createdAt := by
  cases hop : op.type
  · by_cases hid : id = op.entry.id
    · subst hid
      refine ⟨upsertRow (db.entries op.entry.id) op.entry, ?_, ?_⟩
      · simp [applyBatchOp, hop]
      · simp [upsertRow, h]
    · exact ⟨r0, by simp [applyBatchOp, hop, hid, h], rfl⟩
  · by_cases hid : id = op.entry.id
    · subst hid
      exact ⟨{ r0 with deleted := 1 }, by simp [applyBatchOp, hop, h], rfl⟩
    · exact ⟨r0, by simp [applyBatchOp, hop, hid, h], rfl⟩

/-- Batches keep the `created_at` column of every pre-existing row. -/
theorem applyBatch_preserves_created_at (ops : List Operation) :
    ∀ (db : DB) (id : Id) (r0 : DBRow), db.entries id = some r0 →
      ∃ r1, (SQLiteStore.ApplyBatch db ops).entries id = some r1 ∧
        r1.createdAt = r0.createdAt := by
  induction ops with
  | nil => exact fun db id r0 h => ⟨r0, h, rfl⟩
  | cons op rest ih =>
    intro db id r0 h
    obtain ⟨r1, h1, h2⟩ := applyBatchOp_preserves_created_at db op id r0 h
    obtain ⟨r2, h3, h4⟩ := ih (applyBatchOp db op) id r1 h1
    exact ⟨r2, h3, h4.trans h2⟩

/-- C10: `Put` on an id already present in the `entries` table keeps
the stored `created_at` and sets exactly `type`, `content`,
`updated_at` and the tombstone column from the new entry, and replaces
the id's tag rows with the entry's tags; the put branch of `ApplyBatch`
runs the identical upsert, and a batch of any operations never changes
the `created_at` of a pre-existing row. -/
theorem sqlite_put_preserves_created_at (db : DB) (e : Entry) (r0 : DBRow)
    (h : db.entries e.id = some r0) :
    (SQLiteStore.Put db e).entries e.id =
      some ⟨e.type, e.content, r0.createdAt, e.updatedAt, boolToInt e.deleted⟩ ∧
    (SQLiteStore.Put db e).tagRows =
      db.tagRows.filter (fun row => row.1 ≠ e.id) ∪
        e.tags.toFinset.image (fun t => (e.id, t)) ∧
    (∀ (db' : DB) (e' : Entry),
      applyBatchOp db' ⟨.opPut, e'⟩ = SQLiteStore.Put db' e') ∧
    (∀ (ops : List Operation) (id : Id) (row : DBRow),
      db.entries id = some row →
      ∃ r1, (SQLiteStore.ApplyBatch db ops).entries id = some r1 ∧
        r1.createdAt = row.createdAt) := by
  refine ⟨?_, rfl, fun _ _ => rfl, ?_⟩
  · simp [SQLiteStore.Put, upsertRow, h]
  · intro ops id row hrow
    exact applyBatch_preserves_created_at ops db id row hrow

/-- Database used in the C10 witness: one row for `"id0"` with
`created_at = 3`. -/
def c10DB : DB :=
  { entries := fun i => if i = "id0" then some ⟨"note", [1], 3, 4, 0⟩ else none,
    tagRows := {("id0", "old")} }

/-- Entry upserted in the C10 witness: same id, `created_at = 7`
(ignored by the upsert), `updated_at = 9`. -/
def c10Entry : Entry := ⟨"id0", "log", [9], ["t"], 7, 9, false⟩

/-- Witness for C10: upserting over the pre-existing row keeps
`created_at = 3`. -/
theorem sqlite_put_preserves_created_at_witness :
    c10DB.entries c10Entry.id = some ⟨"note", [1], 3, 4, 0⟩ ∧
    ((SQLiteStore.Put c10DB c10Entry).entries c10Entry.id =
      some ⟨c10Entry.type, c10Entry.content, 3, c10Entry.updatedAt,
        boolToInt c10Entry.deleted⟩ ∧
     (SQLiteStore.Put c10DB c10Entry).tagRows =
       c10DB.tagRows.filter (fun row => row.1 ≠ c10Entry.id) ∪
         c10Entry.tags.toFinset.image (fun t => (c10Entry.id, t)) ∧
     (∀ (db' : DB) (e' : Entry),
       applyBatchOp db' ⟨.opPut, e'⟩ = SQLiteStore.Put db' e') ∧
     (∀ (ops : List Operation) (id : Id) (row : DBRow),
       c10DB.entries id = some row →
       ∃ r1, (SQLiteStore.ApplyBatch c10DB ops).entries id = some r1 ∧
         r1.createdAt = row.createdAt)) :=
  ⟨rfl, sqlite_put_preserves_created_at c10DB c10Entry ⟨"note", [1], 3, 4, 0⟩ rfl⟩

end Acorde
